import Mathlib

/-!
Magisk boot core: binary patching, magic mount, init.rc patching, boot stages.

A shallow embedding of `native/jni/init/rootdir.cpp` and
`native/jni/core/bootstages.cpp`, with the properties of the specification
stated over it.

Conventions of the embedding:
* a memory region is a `List Nat` of bytes; an address is an offset into it;
* `memcmp(p, lit, sizeof(lit)) == 0` over a region is `memcmp_eq`; a comparison
  that would run past the end of the region does not match;
* text (lines of `/init.rc`, of `/proc/mounts`, property values) is `List Char`;
* loops over a cursor carry a fuel argument that the entry point sets to the
  loop bound; every iteration advances the cursor by at least one.
-/

namespace Magisk

/-! Byte buffers and the literals of `rootdir.cpp` -/

/-- The bytes of an ASCII literal followed by its terminating NUL. -/
def cstr_bytes (s : String) : List Nat := s.toList.map Char.toNat ++ [0]

/-- The macro `MONOPOLICY`, "/sepolicy", as the `sizeof(MONOPOLICY)` = 10 bytes
of the literal, terminating NUL included. -/
def MONOPOLICY : List Nat := [47, 115, 101, 112, 111, 108, 105, 99, 121, 0]

/-- The macro `PATCHPOLICY`, "/sbin/.se", NUL included (10 bytes). -/
def PATCHPOLICY : List Nat := [47, 115, 98, 105, 110, 47, 46, 115, 101, 0]

/-- Modelled from the spec: `SPLIT_PLAT_CIL` is defined in `init.hpp`, which is
not part of the sources at hand; it is the split-policy path literal
"/system/etc/selinux/plat_sepolicy.cil", here with its NUL (38 bytes). -/
def SPLIT_PLAT_CIL : List Nat :=
  [47, 115, 121, 115, 116, 101, 109, 47, 101, 116, 99, 47, 115, 101, 108, 105, 110, 117, 120,
   47, 112, 108, 97, 116, 95, 115, 101, 112, 111, 108, 105, 99, 121, 46, 99, 105, 108, 0]

/-- The test `memcmp(mem + p, lit, sizeof(lit)) == 0`. -/
def memcmp_eq (mem : List Nat) (p : Nat) (lit : List Nat) : Bool :=
  lit.isPrefixOf (mem.drop p)

/-- The call `memset(mem + p, c, n)`. -/
def memset (mem : List Nat) (p : Nat) (c : Nat) (n : Nat) : List Nat :=
  mem.take p ++ List.replicate n c ++ mem.drop (p + n)

/-- The call `memcpy(mem + p, src, sizeof(src))`. -/
def memcpy (mem : List Nat) (p : Nat) (src : List Nat) : List Nat :=
  mem.take p ++ src ++ mem.drop (p + src.length)

/-- The loop of `SARBase::patch_rootdir` over the image of `/init`
(`for (uint8_t *p = init.buf; p < eof; ++p)`): `p` is the cursor, `eof` the
buffer size, and the Boolean is the local `redirect`. -/
def patch_init_loop : Nat → List Nat → Nat → Nat → Bool → List Nat × Bool
  | 0, mem, _, _, redirect => (mem, redirect)
  | fuel + 1, mem, eof, p, redirect =>
    if p < eof then
      if memcmp_eq mem p SPLIT_PLAT_CIL then
        -- memset(p, 'x', sizeof(SPLIT_PLAT_CIL) - 1); p += sizeof(SPLIT_PLAT_CIL) - 1; then ++p
        patch_init_loop fuel (memset mem p 120 (SPLIT_PLAT_CIL.length - 1)) eof
          (p + (SPLIT_PLAT_CIL.length - 1) + 1) redirect
      else if memcmp_eq mem p MONOPOLICY then
        -- memcpy(p, PATCHPOLICY, sizeof(PATCHPOLICY)); p += sizeof(MONOPOLICY) - 1; then ++p
        patch_init_loop fuel (memcpy mem p PATCHPOLICY) eof
          (p + (MONOPOLICY.length - 1) + 1) true
      else
        patch_init_loop fuel mem eof (p + 1) redirect
    else (mem, redirect)

/-- The `/init` pass of `SARBase::patch_rootdir`: the loop run from the start of
the buffer, `redirect` initially false. The first `size` bytes of `mem` are the
buffer `init.buf`; what follows is whatever lies after it in memory. -/
def patch_init (mem : List Nat) (size : Nat) : List Nat × Bool :=
  patch_init_loop size mem size 0 false

/-- The loop of the libselinux pass (`for (uint8_t *p = lib.buf; p < eof; ++p)`),
which leaves with `break` after the first match. -/
def patch_lib_loop : Nat → List Nat → Nat → Nat → List Nat
  | 0, mem, _, _ => mem
  | fuel + 1, mem, eof, p =>
    if p < eof then
      if memcmp_eq mem p MONOPOLICY then
        memcpy mem p PATCHPOLICY
      else
        patch_lib_loop fuel mem eof (p + 1)
    else mem

/-- The libselinux pass of `SARBase::patch_rootdir`. -/
def patch_libselinux (mem : List Nat) (size : Nat) : List Nat :=
  patch_lib_loop size mem size 0

/-- The loop of `patch_socket_name` (`for (int i = 0; i < size; ++i)`).
`MAIN_SOCKET` (from `magisk.hpp`) and `gen_rand_str` (from the utilities) are not
in the sources at hand and are parameters: `sock` is the `sizeof(MAIN_SOCKET)`
bytes of the literal, NUL included, and `gen k` is what the `k`-th call
`gen_rand_str(buf + i, 16)` stores at `buf + i`. -/
def patch_socket_loop (sock : List Nat) (gen : Nat → List Nat) :
    Nat → List Nat → Nat → Nat → Nat → List Nat
  | 0, buf, _, _, _ => buf
  | fuel + 1, buf, size, i, k =>
    if i < size then
      if memcmp_eq buf i sock then
        -- gen_rand_str(buf + i, 16); i += sizeof(MAIN_SOCKET); then ++i
        patch_socket_loop sock gen fuel (memcpy buf i (gen k)) size (i + sock.length + 1) (k + 1)
      else
        patch_socket_loop sock gen fuel buf size (i + 1) k
    else buf

/-- The function `patch_socket_name` on the mapped file contents. -/
def patch_socket_name (sock : List Nat) (gen : Nat → List Nat) (buf : List Nat) : List Nat :=
  patch_socket_loop sock gen buf.length buf buf.length 0 0

/-! The overlay merge engine (`magic_mount`) -/

/-- The entries that `readdir` delivers for a directory of the staging tree, in
listing order. An entry is a directory (`d_type == DT_DIR`), given with the
listing of that directory, or anything else (regular file, symlink, ...). -/
inductive Listing where
  | done : Listing
  | other (d_name : String) (rest : Listing) : Listing
  | dir (d_name : String) (sub : Listing) (rest : Listing) : Listing

/-- The effects of `magic_mount`: the calls
`xmount(src, dest, nullptr, MS_BIND, nullptr)` made so far, as pairs
`(src, dest)`, and the global string `magic_mount_list`. -/
structure MountState where
  mounts : List (String × String)
  magic_mount_list : String
deriving DecidableEq

/-- The `else` branch of `magic_mount`: bind-mount `src` on `dest`, then
`magic_mount_list += dest; magic_mount_list += '\n'`. -/
def bind_and_record (st : MountState) (src dest : String) : MountState :=
  { mounts := st.mounts ++ [(src, dest)],
    magic_mount_list := st.magic_mount_list ++ dest ++ "\n" }

/-- The test `entry->d_name == "."sv || entry->d_name == ".."sv`. -/
def is_dot (d_name : String) : Bool := d_name == "." || d_name == ".."

/-- The function `magic_mount(sdir, ddir)` run over the listing of `sdir`;
`access dest` is `access(dest.data(), F_OK) == 0` on the live tree. -/
def magic_mount (access : String → Bool) :
    String → String → Listing → MountState → MountState
  | _, _, .done, st => st
  | sdir, ddir, .other d_name rest, st =>
    if is_dot d_name then magic_mount access sdir ddir rest st
    else
      let src := sdir ++ "/" ++ d_name
      let dest := ddir ++ "/" ++ d_name
      if access dest then
        magic_mount access sdir ddir rest (bind_and_record st src dest)
      else magic_mount access sdir ddir rest st
  | sdir, ddir, .dir d_name sub rest, st =>
    if is_dot d_name then magic_mount access sdir ddir rest st
    else
      let src := sdir ++ "/" ++ d_name
      let dest := ddir ++ "/" ++ d_name
      if access dest then
        magic_mount access sdir ddir rest (magic_mount access src dest sub st)
      else magic_mount access sdir ddir rest st

/-- A staged entry as the specification speaks of it: its path in the staging
tree, the corresponding live path, whether it is a directory, and the live
paths of the staged directories through which it is reached. -/
structure Staged where
  src : String
  dest : String
  is_dir : Bool
  through : List String
deriving DecidableEq

/-- All entries of a staging tree (other than "." and ".."), each once, in
depth-first listing order; no reference to the live tree. -/
def staged_entries : String → String → List String → Listing → List Staged
  | _, _, _, .done => []
  | sdir, ddir, through, .other d_name rest =>
    if is_dot d_name then staged_entries sdir ddir through rest
    else
      { src := sdir ++ "/" ++ d_name, dest := ddir ++ "/" ++ d_name, is_dir := false,
        through := through } :: staged_entries sdir ddir through rest
  | sdir, ddir, through, .dir d_name sub rest =>
    if is_dot d_name then staged_entries sdir ddir through rest
    else
      { src := sdir ++ "/" ++ d_name, dest := ddir ++ "/" ++ d_name, is_dir := true,
        through := through } ::
        (staged_entries (sdir ++ "/" ++ d_name) (ddir ++ "/" ++ d_name)
            (through ++ [ddir ++ "/" ++ d_name]) sub ++
          staged_entries sdir ddir through rest)

/-- The entries the specification says are mounted: not a directory, the live
path exists, and so do the live paths of all staged directories above it. -/
def is_merged (access : String → Bool) (e : Staged) : Bool :=
  !e.is_dir && access e.dest && e.through.all access

/-! Text helpers (`str_contains`, `str_starts`, "%s") -/

/-- The test `str_contains(s, ss)`, that is `s.find(ss) != std::string::npos`. -/
def str_contains : List Char → List Char → Bool
  | [], ss => ss.isEmpty
  | c :: s, ss => ss.isPrefixOf (c :: s) || str_contains s ss

/-- The test `str_starts(s, ss)`, that is `s.compare(0, strlen(ss), ss) == 0`. -/
def str_starts (s ss : List Char) : Bool := ss.isPrefixOf s

/-- What `fprintf(rc, "%s", p)` writes for the bytes at `p`: everything up to
the first NUL. -/
def c_str (s : List Char) : List Char := s.takeWhile (fun c => c != Char.ofNat 0)

/-! The init.rc patcher (`patch_init_rc`) -/

/-- The literal "start vaultkeeper". -/
def VAULTKEEPER : List Char := "start vaultkeeper".toList

/-- The literal "service flash_recovery". -/
def FLASH_RECOVERY : List Char := "service flash_recovery".toList

/-- The line written in place of a flash_recovery service line. -/
def FLASH_RECOVERY_STUB : List Char := "service flash_recovery /system/bin/xxxxx\n".toList

/-- The callback that `patch_init_rc` hands to `file_readline`, as the content
of the stream `rc` after the call on `line`. It always returns true, so
`file_readline` goes on to the next line. -/
def patch_init_rc_line (rc : List Char) (line : List Char) : List Char :=
  if str_contains line VAULTKEEPER then rc                    -- do not start vaultkeeper
  else if str_starts line FLASH_RECOVERY then rc ++ FLASH_RECOVERY_STUB
  else rc ++ c_str line                                       -- fprintf(rc, "%s", line.data())

/-- The passthrough part of `patch_init_rc`: the stream after `file_readline`
has handed every line of `/init.rc` to the callback. -/
def passthrough (lines : List (List Char)) : List Char :=
  lines.foldl patch_init_rc_line []

/-- The function `patch_init_rc` on a freshly opened stream: the content
written, and `rc_list` afterwards. `lines` are the lines of `/init.rc` as
`file_readline` hands them over (each with its line terminator), `rc_list` the
collected fragments. `gen_rand_str` and the format `magiskrc` (from
`magiskrc.inc`) are not in the sources at hand and are parameters: `gen k` is
the name produced by the `k`-th call, `magiskrc` the text that `fprintf` makes
of its five arguments. -/
def patch_init_rc (lines : List (List Char)) (rc_list : List (List Char))
    (gen : Nat → List Char)
    (magiskrc : List Char → List Char → List Char → List Char → List Char → List Char) :
    List Char × List (List Char) :=
  let rc := passthrough lines
  let rc := rc ++ "\n".toList
  -- for (auto &d : rc_list) fprintf(rc, "\n%s\n", d.buf)
  let rc := rc_list.foldl (fun rc d => rc ++ "\n".toList ++ c_str d ++ "\n".toList) rc
  let pfd_svc := gen 0
  let ls_svc := gen 1
  let bc_svc := gen 2
  (rc ++ magiskrc pfd_svc pfd_svc ls_svc bc_svc bc_svc, [])

/-- What becomes of one line of `/init.rc`: dropped when it contains
"start vaultkeeper"; otherwise replaced by the stub when it starts with
"service flash_recovery"; otherwise kept as it is. -/
def kept_line (line : List Char) : Option (List Char) :=
  if str_contains line VAULTKEEPER then none
  else if str_starts line FLASH_RECOVERY then some FLASH_RECOVERY_STUB
  else some line

/-- The lines of a text: each runs up to and including its '\n'; a last line
may lack it. -/
def text_lines : List Char → List (List Char)
  | [] => []
  | c :: cs =>
    if c = '\n' then [c] :: text_lines cs
    else
      match text_lines cs with
      | [] => [[c]]
      | l :: ls => (c :: l) :: ls

/-- A line that ends with its only '\n'. -/
def closed_line (l : List Char) : Prop := ∃ body, l = body ++ ['\n'] ∧ '\n' ∉ body

/-- A non-empty line without '\n'. -/
def open_line (l : List Char) : Prop := l ≠ [] ∧ '\n' ∉ l

/-- The shape of the lines of a text: all closed, but the last may be open. -/
def lines_shaped : List (List Char) → Prop
  | [] => True
  | [l] => closed_line l ∨ open_line l
  | l :: l2 :: ls => closed_line l ∧ lines_shaped (l2 :: ls)

/-! The boot stages of `bootstages.cpp` -/

/-- The function `check_data`: `mounts` are the lines of `/proc/mounts` handed
to the callback of `file_readline`, `crypto` is `getprop("ro.crypto.state")`
and `vold` is `getprop("init.svc.vold")`. -/
def check_data (mounts : List (List Char)) (crypto vold : List Char) : Bool :=
  let mnt := mounts.foldl
    (fun mnt s =>
      if str_contains s " /data ".toList && !str_contains s "tmpfs".toList then true else mnt)
    false
  if mnt then
    if !crypto.isEmpty then
      if crypto == "unencrypted".toList then true   -- unencrypted: data is accessible
      else !vold.isEmpty                            -- encrypted: is vold started?
    else true                                       -- not set: assume unencrypted
  else false

/-- The observable actions of the three stages, in the order they are made.
Log lines (`LOGI`, `LOGE`) are not recorded. -/
inductive Event where
  | ack (code : Int)                 -- write_int(client, code)
  | close_client                     -- close(client)
  | remount_root_ro                  -- xmount(nullptr, "/", nullptr, MS_REMOUNT | MS_RDONLY, nullptr)
  | logcat_test                      -- dump_logs: exec_command_sync("/system/bin/logcat", "-d", ...)
  | chmod_dev_null                   -- dump_logs: chmod("/dev/null", 0666)
  | rename_logfile                   -- dump_logs: rename(LOGFILE, LOGFILE ".bak")
  | start_log_thread                 -- dump_logs: new_daemon_thread(...)
  | unlock_blocks
  | magisk_env                       -- the call magisk_env(): directories, mirrors, busybox
  | exec_common_script (stage : String)
  | exec_module_script (stage : String) (modules : List String)
  | handle_modules
  | auto_start_magiskhide
  | create_unblock_file              -- close(xopen(UNBLOCKFILE, O_RDONLY | O_CREAT, 0))
  | thread_exit                      -- pthread_exit(nullptr)
  | mkdir_secure_dir                 -- xmkdir(SECURE_DIR, 0700)
  | reboot
  | release_module_list              -- module_list.clear(); module_list.shrink_to_fit()
  | rename_manager_apk               -- rename(MANAGERAPK, "/data/magisk.apk")
  | check_manager
  | extract_stub                     -- exec_command_sync("/sbin/magiskinit", "-x", "manager", ...)
  | install_apk
deriving DecidableEq

/-- The state of the daemon: the two BootFlags, the flag `log_dump` of
`dump_logs`, the global `module_list`, and the actions made so far. -/
structure Daemon where
  no_secure_dir : Bool
  pfs_done : Bool
  log_dump : Bool
  module_list : List String
  trace : List Event
deriving DecidableEq

/-- The daemon before any stage: both BootFlags and `log_dump` false, as
initialised in `bootstages.cpp`. -/
def Daemon.start (module_list : List String) : Daemon :=
  { no_secure_dir := false, pfs_done := false, log_dump := false,
    module_list := module_list, trace := [] }

/-- Record actions. -/
def Daemon.emit (d : Daemon) (es : List Event) : Daemon :=
  { d with trace := d.trace ++ es }

/-- What a stage finds when it asks the system, in the order of the source. -/
structure Env where
  /-- post_fs_data: `getenv("REMOUNT_ROOT")` is set -/
  remount_root : Bool
  /-- the lines of `/proc/mounts` -/
  mounts : List (List Char)
  /-- the value of `getprop("ro.crypto.state")` -/
  crypto_state : List Char
  /-- the value of `getprop("init.svc.vold")` -/
  svc_vold : List Char
  /-- dump_logs: the test run of logcat returned 0 -/
  logcat_ok : Bool
  /-- the test `access(SECURE_DIR, F_OK) == 0` -/
  secure_dir : Bool
  /-- the return value of `magisk_env()` -/
  magisk_env_ok : Bool
  /-- the test `access(DISABLEFILE, F_OK) == 0` -/
  disable_file : Bool
  /-- what `handle_modules()` leaves in `module_list` -/
  modules : List String
  /-- late_start: the call `reboot()` returns to its caller -/
  reboot_returns : Bool
  /-- boot_complete: the test `access(MANAGERAPK, F_OK) == 0` -/
  manager_apk : Bool
  /-- boot_complete: the return value of `check_manager()` -/
  manager_installed : Bool

/-- The function `dump_logs`. -/
def dump_logs (env : Env) (d : Daemon) : Daemon :=
  if d.log_dump then d
  else
    let d := d.emit [.logcat_test, .chmod_dev_null]
    if !env.logcat_ok then d
    else { (d.emit [.rename_logfile, .start_log_thread]) with log_dump := true }

/-- The function `unblock_boot_process` (`[[noreturn]]`): the stage ends here. -/
def unblock_boot_process (d : Daemon) : Daemon :=
  d.emit [.create_unblock_file, .thread_exit]

/-- The function `core_only` (`[[noreturn]]`). -/
def core_only (d : Daemon) : Daemon :=
  unblock_boot_process ({ d with pfs_done := true }.emit [.auto_start_magiskhide])

/-- The entry point `post_fs_data`. -/
def post_fs_data (env : Env) (d : Daemon) : Daemon :=
  let d := d.emit [.ack 0, .close_client]
  let d := if env.remount_root then d.emit [.remount_root_ro] else d
  if !check_data env.mounts env.crypto_state env.svc_vold then unblock_boot_process d
  else
    let d := dump_logs env d
    let d := d.emit [.unlock_blocks]
    if !env.secure_dir then unblock_boot_process { d with no_secure_dir := true }
    else
      let d := d.emit [.magisk_env]
      if !env.magisk_env_ok then unblock_boot_process d
      else
        let d := d.emit [.exec_common_script "post-fs-data"]
        if env.disable_file then core_only d
        else
          let d := { (d.emit [.handle_modules]) with module_list := env.modules }
          core_only d

/-- The entry point `late_start`. When `reboot()` does not return, the stage
ends with it. -/
def late_start (env : Env) (d : Daemon) : Daemon :=
  let d := d.emit [.ack 0, .close_client]
  let d := dump_logs env d
  let d :=
    if d.no_secure_dir then
      let d := if !env.secure_dir then d.emit [.mkdir_secure_dir] else d
      d.emit [.reboot]
    else d
  if d.no_secure_dir && !env.reboot_returns then d
  else if !d.pfs_done then d
  else
    let d := d.emit [.auto_start_magiskhide, .exec_common_script "service"]
    let d :=
      if !env.disable_file then d.emit [.exec_module_script "service" d.module_list] else d
    { (d.emit [.release_module_list]) with module_list := [] }

/-- The entry point `boot_complete`. -/
def boot_complete (env : Env) (d : Daemon) : Daemon :=
  let d := d.emit [.ack 0, .close_client]
  if !d.pfs_done then d
  else
    let d := d.emit [.auto_start_magiskhide]
    if env.manager_apk then d.emit [.rename_manager_apk, .install_apk]
    else
      let d := d.emit [.check_manager]
      if !env.manager_installed then d.emit [.extract_stub, .install_apk] else d

/-- Running a script of a stage directory or of a module. -/
def Event.is_script : Event → Bool
  | .exec_common_script _ => true
  | .exec_module_script _ _ => true
  | _ => false

/-- The actions of `dump_logs`. -/
def Event.is_log_capture : Event → Bool
  | .logcat_test => true
  | .chmod_dev_null => true
  | .rename_logfile => true
  | .start_log_thread => true
  | _ => false

/-- The condition under which the specification says that `check_data`
succeeds: the data partition is mounted, and either `ro.crypto.state` is
"unencrypted", or it has another value and `init.svc.vold` is non-empty. -/
def check_data_as_claimed (mounts : List (List Char)) (crypto vold : List Char) : Prop :=
  (∃ s ∈ mounts, str_contains s " /data ".toList = true ∧ str_contains s "tmpfs".toList = false) ∧
  (crypto = "unencrypted".toList ∨ (crypto ≠ "unencrypted".toList ∧ vold ≠ []))

/-! Sample inputs and auxiliary constants -/

/-- A staging tree: `init`, `system/lib/libselinux.so`, `system/lib/libnew.so`,
`overlay.d/init.rc` and `init.rc`, listed with "." and "..". -/
def staging_sample : Listing :=
  .dir "." .done (.dir ".." .done
    (.other "init"
      (.dir "system" (.dir "lib" (.other "libselinux.so" (.other "libnew.so" .done)) .done)
        (.dir "overlay.d" (.other "init.rc" .done) (.other "init.rc" .done)))))

/-- A live tree with `/init`, `/init.rc` and `/system/lib/libselinux.so`. -/
def live_sample (path : String) : Bool :=
  path ∈ ["/init", "/init.rc", "/system", "/system/lib", "/system/lib/libselinux.so"]

/-- What the loop leaves of a matched `SPLIT_PLAT_CIL`: 37 times 'x', then
the NUL it does not touch. -/
def SPLIT_FILL : List Nat := List.replicate 37 120 ++ [0]

/-- The buffer "a/sepolicy\0b". -/
def init_sample : List Nat := [97, 47, 115, 101, 112, 111, 108, 105, 99, 121, 0, 98]

/-- A 33-byte socket name, "d30138f2310a9fb9c54a3e0c21f58591" with its NUL,
as a sample value of the parameter `sock`. -/
def sample_socket : List Nat :=
  [100, 51, 48, 49, 51, 56, 102, 50, 51, 49, 48, 97, 57, 102, 98, 57, 99, 53, 52, 97, 51, 101,
   48, 99, 50, 49, 102, 53, 56, 53, 57, 49, 0]

/-- A sample generator: every call stores "ABCDEFGHIJKLMNO" and a NUL (16 bytes). -/
def sample_gen : Nat → List Nat :=
  fun _ => [65, 66, 67, 68, 69, 70, 71, 72, 73, 74, 75, 76, 77, 78, 79, 0]

/-- A `/proc/mounts` whose only line is an ext4 `/data`. -/
def mounts_sample : List (List Char) := ["/dev/block/dm-0 /data ext4 rw,seclabel 0 0".toList]

/-- An environment in which everything asked for is there: `/data` mounted and
unencrypted, the secure directory present, `magisk_env` succeeding, no disable
marker. -/
def env_sample : Env :=
  { remount_root := false, mounts := mounts_sample,
    crypto_state := "unencrypted".toList, svc_vold := [],
    logcat_ok := true, secure_dir := true, magisk_env_ok := true, disable_file := false,
    modules := ["m1"], reboot_returns := true, manager_apk := false,
    manager_installed := true }

/-- A line that starts with "service flash_recovery" and contains
"start vaultkeeper". -/
def flash_vault_line : List Char :=
  "service flash_recovery /system/bin/sh -c start vaultkeeper\n".toList

/-- Four lines of an `/init.rc`. -/
def init_rc_sample : List (List Char) :=
  ["on init\n".toList, "    start vaultkeeper\n".toList,
   "service flash_recovery /system/bin/install-recovery.sh\n".toList,
   "    class main\n".toList]

/-! Proofs: the binary patch engine -/

theorem memcmp_eq_iff (mem : List Nat) (p : Nat) (lit : List Nat) :
    memcmp_eq mem p lit = true ↔ lit <+: mem.drop p := by
  simp [memcmp_eq]

theorem memcmp_eq_shift (pre suf : List Nat) (q : Nat) (lit : List Nat) :
    memcmp_eq (pre ++ suf) (pre.length + q) lit = memcmp_eq suf q lit := by
  simp [memcmp_eq, List.drop_append]

theorem memset_shift (pre suf : List Nat) (q c n : Nat) :
    memset (pre ++ suf) (pre.length + q) c n = pre ++ memset suf q c n := by
  simp [memset, List.take_append, List.drop_append, Nat.add_assoc]

theorem memcpy_shift (pre suf : List Nat) (q : Nat) (src : List Nat) :
    memcpy (pre ++ suf) (pre.length + q) src = pre ++ memcpy suf q src := by
  simp [memcpy, List.take_append, List.drop_append, Nat.add_assoc]

/-- Running the loop behind a prefix that lies wholly before the cursor is
running it on the rest, the prefix being carried along untouched. -/
theorem patch_init_loop_shift (pre : List Nat) :
    ∀ (fuel : Nat) (suf : List Nat) (eof q : Nat) (r : Bool),
      patch_init_loop fuel (pre ++ suf) eof (pre.length + q) r =
        (pre ++ (patch_init_loop fuel suf (eof - pre.length) q r).1,
          (patch_init_loop fuel suf (eof - pre.length) q r).2) := by
  intro fuel
  induction fuel with
  | zero => intro suf eof q r; simp [patch_init_loop]
  | succ fuel ih =>
    intro suf eof q r
    simp only [patch_init_loop, memcmp_eq_shift, memset_shift, memcpy_shift]
    have hc : (pre.length + q < eof) ↔ (q < eof - pre.length) := by omega
    by_cases h : q < eof - pre.length
    · rw [if_pos (hc.mpr h), if_pos h]
      split
      · rw [Nat.add_assoc, Nat.add_assoc, ih, Nat.add_assoc]
      · split
        · rw [Nat.add_assoc, Nat.add_assoc, ih, Nat.add_assoc]
        · rw [Nat.add_assoc, ih]
    · rw [if_neg (fun h2 => h (hc.mp h2)), if_neg h]

theorem patch_init_loop_nil (fuel eof q : Nat) (r : Bool) :
    (patch_init_loop fuel [] eof q r).1 = [] := by
  induction fuel generalizing q r with
  | zero => simp [patch_init_loop]
  | succ fuel ih =>
    simp only [patch_init_loop]
    have h1 : memcmp_eq [] q SPLIT_PLAT_CIL = false := by simp [memcmp_eq, SPLIT_PLAT_CIL]
    have h2 : memcmp_eq [] q MONOPOLICY = false := by simp [memcmp_eq, MONOPOLICY]
    rw [h1, h2]
    split
    · simpa using ih _ _
    · rfl

theorem patch_init_loop_done (fuel : Nat) (mem : List Nat) (eof q : Nat) (r : Bool)
    (h : eof ≤ q) : patch_init_loop fuel mem eof q r = (mem, r) := by
  cases fuel with
  | zero => rfl
  | succ fuel => simp [patch_init_loop, Nat.not_lt.mpr h]

theorem patch_init_loop_split (fuel : Nat) (t : List Nat) (n : Nat) (r : Bool) (hn : 0 < n) :
    (patch_init_loop (fuel + 1) (SPLIT_PLAT_CIL ++ t) n 0 r).1 =
      SPLIT_FILL ++ (patch_init_loop fuel t (n - 38) 0 r).1 := by
  have hm : memcmp_eq (SPLIT_PLAT_CIL ++ t) 0 SPLIT_PLAT_CIL = true := by
    simp [memcmp_eq]
  have hs : memset (SPLIT_PLAT_CIL ++ t) 0 120 (SPLIT_PLAT_CIL.length - 1) = SPLIT_FILL ++ t := by
    simp [memset, SPLIT_PLAT_CIL, SPLIT_FILL]
  have hl : 0 + (SPLIT_PLAT_CIL.length - 1) + 1 = SPLIT_FILL.length + 0 := by
    simp [SPLIT_PLAT_CIL, SPLIT_FILL]
  have h38 : SPLIT_FILL.length = 38 := by simp [SPLIT_FILL]
  simp only [patch_init_loop, if_pos hn, hm, hs, if_true]
  rw [hl, patch_init_loop_shift, h38]

theorem patch_init_loop_mono (fuel : Nat) (t : List Nat) (n : Nat) (r : Bool) (hn : 0 < n)
    (hs : memcmp_eq (MONOPOLICY ++ t) 0 SPLIT_PLAT_CIL = false) :
    (patch_init_loop (fuel + 1) (MONOPOLICY ++ t) n 0 r).1 =
      PATCHPOLICY ++ (patch_init_loop fuel t (n - 10) 0 true).1 := by
  have hm : memcmp_eq (MONOPOLICY ++ t) 0 MONOPOLICY = true := by
    simp [memcmp_eq]
  have hc : memcpy (MONOPOLICY ++ t) 0 PATCHPOLICY = PATCHPOLICY ++ t := by
    simp [memcpy, MONOPOLICY, PATCHPOLICY]
  have hl : 0 + (MONOPOLICY.length - 1) + 1 = PATCHPOLICY.length + 0 := by
    simp [MONOPOLICY, PATCHPOLICY]
  have h10 : PATCHPOLICY.length = 10 := by simp [PATCHPOLICY]
  simp only [patch_init_loop, if_pos hn, hm, hs, hc, if_true]
  rw [hl, patch_init_loop_shift, h10]
  simp

theorem patch_init_loop_skip (fuel : Nat) (b : Nat) (t : List Nat) (n : Nat) (r : Bool)
    (hn : 0 < n)
    (hs : memcmp_eq (b :: t) 0 SPLIT_PLAT_CIL = false)
    (hm : memcmp_eq (b :: t) 0 MONOPOLICY = false) :
    (patch_init_loop (fuel + 1) (b :: t) n 0 r).1 =
      b :: (patch_init_loop fuel t (n - 1) 0 r).1 := by
  simp only [patch_init_loop, if_pos hn, hm, hs]
  have := patch_init_loop_shift [b] fuel t n 0 r
  simp at this
  simp [this]

theorem drop_append_len (A t : List Nat) (k j : Nat) (h : A.length = k) :
    (A ++ t).drop (k + j) = t.drop j := by
  subst h
  exact List.drop_append j

theorem SPLIT_FILL_length : SPLIT_FILL.length = 38 := by simp [SPLIT_FILL]

theorem SPLIT_PLAT_CIL_length : SPLIT_PLAT_CIL.length = 38 := by simp [SPLIT_PLAT_CIL]

theorem MONOPOLICY_length : MONOPOLICY.length = 10 := by simp [MONOPOLICY]

theorem PATCHPOLICY_length : PATCHPOLICY.length = 10 := by simp [PATCHPOLICY]

/-- No "/sepolicy\0" starts inside an occurrence of `SPLIT_PLAT_CIL`. -/
theorem no_mono_in_split (t : List Nat) (i : Nat) (hi : i < 38) :
    ¬ MONOPOLICY <+: (SPLIT_PLAT_CIL ++ t).drop i := by
  interval_cases i <;> simp [MONOPOLICY, SPLIT_PLAT_CIL]

/-- No "/sepolicy\0" starts inside the bytes left of a matched `SPLIT_PLAT_CIL`. -/
theorem no_mono_in_fill (t : List Nat) (i : Nat) (hi : i < 38) :
    ¬ MONOPOLICY <+: (SPLIT_FILL ++ t).drop i := by
  interval_cases i <;> simp [MONOPOLICY, SPLIT_FILL, List.replicate]

/-- Two occurrences of "/sepolicy\0" do not overlap. -/
theorem no_mono_in_mono (t : List Nat) (i : Nat) (h0 : 0 < i) (hi : i < 10) :
    ¬ MONOPOLICY <+: (MONOPOLICY ++ t).drop i := by
  interval_cases i <;> simp [MONOPOLICY]

/-- No "/sepolicy\0" starts inside a written "/sbin/.se\0". -/
theorem no_mono_in_patch (t : List Nat) (i : Nat) (hi : i < 10) :
    ¬ MONOPOLICY <+: (PATCHPOLICY ++ t).drop i := by
  interval_cases i <;> simp [MONOPOLICY, PATCHPOLICY]

/-- Every "/sepolicy\0" of the input that starts below the loop bound is
"/sbin/.se\0" in the output. -/
theorem patch_init_loop_patches :
    ∀ (fuel : Nat) (l : List Nat) (n : Nat) (r : Bool) (i : Nat),
      n ≤ fuel → i < n → MONOPOLICY <+: l.drop i →
        PATCHPOLICY <+: ((patch_init_loop fuel l n 0 r).1).drop i := by
  intro fuel
  induction fuel with
  | zero => intro l n r i hf hi; omega
  | succ fuel ih =>
    intro l n r i hf hi hocc
    have hn : 0 < n := by omega
    by_cases hs : memcmp_eq l 0 SPLIT_PLAT_CIL = true
    · obtain ⟨t, rfl⟩ := (memcmp_eq_iff _ _ _).mp hs
      rw [patch_init_loop_split fuel t n r hn]
      by_cases h38 : i < 38
      · exact absurd hocc (no_mono_in_split t i h38)
      · obtain ⟨j, rfl⟩ : ∃ j, i = 38 + j := ⟨i - 38, by omega⟩
        rw [drop_append_len _ _ 38 j SPLIT_FILL_length]
        rw [drop_append_len _ _ 38 j SPLIT_PLAT_CIL_length] at hocc
        exact ih t (n - 38) r j (by omega) (by omega) hocc
    · have hs2 : memcmp_eq l 0 SPLIT_PLAT_CIL = false := by simpa using hs
      by_cases hm : memcmp_eq l 0 MONOPOLICY = true
      · obtain ⟨t, rfl⟩ := (memcmp_eq_iff _ _ _).mp hm
        rw [patch_init_loop_mono fuel t n r hn hs2]
        by_cases h0 : i = 0
        · subst h0; simp
        · by_cases h10 : i < 10
          · exact absurd hocc (no_mono_in_mono t i (by omega) h10)
          · obtain ⟨j, rfl⟩ : ∃ j, i = 10 + j := ⟨i - 10, by omega⟩
            rw [drop_append_len _ _ 10 j PATCHPOLICY_length]
            rw [drop_append_len _ _ 10 j MONOPOLICY_length] at hocc
            exact ih t (n - 10) true j (by omega) (by omega) hocc
      · have hm2 : memcmp_eq l 0 MONOPOLICY = false := by simpa using hm
        cases l with
        | nil => simp [MONOPOLICY] at hocc
        | cons b t =>
          rw [patch_init_loop_skip fuel b t n r hn hs2 hm2]
          cases i with
          | zero => exact absurd ((memcmp_eq_iff _ _ _).mpr hocc) hm
          | succ j =>
            simp only [List.drop_succ_cons] at hocc ⊢
            exact ih t (n - 1) r j (by omega) (by omega) hocc

/-- A word without '/' and without 'x' that starts the output starts the input:
the loop writes only at a '/', and what it writes starts with 'x' or '/'. -/
theorem patch_init_loop_reflects :
    ∀ (fuel : Nat) (l : List Nat) (n : Nat) (r : Bool) (w : List Nat),
      (∀ c ∈ w, c ≠ 47 ∧ c ≠ 120) →
        w <+: (patch_init_loop fuel l n 0 r).1 → w <+: l := by
  intro fuel
  induction fuel with
  | zero => intro l n r w _ h; simpa [patch_init_loop] using h
  | succ fuel ih =>
    intro l n r w hw h
    cases w with
    | nil => exact List.nil_prefix
    | cons c w =>
      have hc := hw c (List.mem_cons_self _ _)
      by_cases hn : 0 < n
      · by_cases hs : memcmp_eq l 0 SPLIT_PLAT_CIL = true
        · obtain ⟨t, rfl⟩ := (memcmp_eq_iff _ _ _).mp hs
          rw [patch_init_loop_split fuel t n r hn] at h
          simp [SPLIT_FILL, List.replicate] at h
          omega
        · have hs2 : memcmp_eq l 0 SPLIT_PLAT_CIL = false := by simpa using hs
          by_cases hm : memcmp_eq l 0 MONOPOLICY = true
          · obtain ⟨t, rfl⟩ := (memcmp_eq_iff _ _ _).mp hm
            rw [patch_init_loop_mono fuel t n r hn hs2] at h
            simp [PATCHPOLICY] at h
            omega
          · have hm2 : memcmp_eq l 0 MONOPOLICY = false := by simpa using hm
            cases l with
            | nil => simp [patch_init_loop_nil] at h
            | cons b t =>
              rw [patch_init_loop_skip fuel b t n r hn hs2 hm2] at h
              rw [List.cons_prefix_cons] at h ⊢
              exact ⟨h.1, ih t (n - 1) r w (fun c hc => hw c (List.mem_cons_of_mem _ hc)) h.2⟩
      · rw [patch_init_loop_done _ _ _ _ _ (by omega)] at h
        exact h

/-- No "/sepolicy\0" lies below the loop bound in the output. -/
theorem patch_init_loop_clean :
    ∀ (fuel : Nat) (l : List Nat) (n : Nat) (r : Bool) (i : Nat),
      n ≤ fuel → i + 10 ≤ n →
        ¬ MONOPOLICY <+: ((patch_init_loop fuel l n 0 r).1).drop i := by
  intro fuel
  induction fuel with
  | zero => intro l n r i hf hi; omega
  | succ fuel ih =>
    intro l n r i hf hi
    have hn : 0 < n := by omega
    by_cases hs : memcmp_eq l 0 SPLIT_PLAT_CIL = true
    · obtain ⟨t, rfl⟩ := (memcmp_eq_iff _ _ _).mp hs
      rw [patch_init_loop_split fuel t n r hn]
      by_cases h38 : i < 38
      · exact no_mono_in_fill _ i h38
      · obtain ⟨j, rfl⟩ : ∃ j, i = 38 + j := ⟨i - 38, by omega⟩
        rw [drop_append_len _ _ 38 j SPLIT_FILL_length]
        exact ih t (n - 38) r j (by omega) (by omega)
    · have hs2 : memcmp_eq l 0 SPLIT_PLAT_CIL = false := by simpa using hs
      by_cases hm : memcmp_eq l 0 MONOPOLICY = true
      · obtain ⟨t, rfl⟩ := (memcmp_eq_iff _ _ _).mp hm
        rw [patch_init_loop_mono fuel t n r hn hs2]
        by_cases h10 : i < 10
        · exact no_mono_in_patch _ i h10
        · obtain ⟨j, rfl⟩ : ∃ j, i = 10 + j := ⟨i - 10, by omega⟩
          rw [drop_append_len _ _ 10 j PATCHPOLICY_length]
          exact ih t (n - 10) true j (by omega) (by omega)
      · have hm2 : memcmp_eq l 0 MONOPOLICY = false := by simpa using hm
        cases l with
        | nil => simp [patch_init_loop_nil, MONOPOLICY]
        | cons b t =>
          rw [patch_init_loop_skip fuel b t n r hn hs2 hm2]
          cases i with
          | zero =>
            intro hocc
            rw [List.drop_zero, MONOPOLICY, List.cons_prefix_cons] at hocc
            have ht := patch_init_loop_reflects fuel t (n - 1) r _ (by decide) hocc.2
            apply hm
            rw [memcmp_eq_iff, List.drop_zero, MONOPOLICY, List.cons_prefix_cons]
            exact ⟨hocc.1, ht⟩
          | succ j =>
            simp only [List.drop_succ_cons]
            exact ih t (n - 1) r j (by omega) (by omega)

theorem patch_init_loop_length :
    ∀ (fuel : Nat) (mem : List Nat) (eof p : Nat) (r : Bool),
      ((patch_init_loop fuel mem eof p r).1).length = mem.length := by
  intro fuel
  induction fuel with
  | zero => intro mem eof p r; rfl
  | succ fuel ih =>
    intro mem eof p r
    simp only [patch_init_loop]
    split
    · split
      · rename_i hs
        rw [ih]
        have h := ((memcmp_eq_iff _ _ _).mp hs).length_le
        simp [SPLIT_PLAT_CIL] at h
        simp [memset, SPLIT_PLAT_CIL]
        omega
      · split
        · rename_i hm
          rw [ih]
          have h := ((memcmp_eq_iff _ _ _).mp hm).length_le
          simp [MONOPOLICY] at h
          simp [memcpy, PATCHPOLICY]
          omega
        · exact ih _ _ _ _
    · rfl

/-- Claim C1. The `/init` pass of `SARBase::patch_rootdir`, for every memory
content and buffer size: the patched image has the length of the input;
wherever the input buffer holds "/sepolicy\0" (the 10 bytes of `MONOPOLICY`,
wholly inside the buffer) the patched buffer holds "/sbin/.se\0"
(`PATCHPOLICY`) at the same offset; and the patched buffer holds
"/sepolicy\0" at no offset. -/
theorem patch_init_redirects_every_sepolicy (mem : List Nat) (size : Nat) :
    ((patch_init mem size).1).length = mem.length ∧
    (∀ i, i + 10 ≤ size → memcmp_eq mem i MONOPOLICY = true →
      memcmp_eq (patch_init mem size).1 i PATCHPOLICY = true) ∧
    (∀ i, i + 10 ≤ size → memcmp_eq (patch_init mem size).1 i MONOPOLICY = false) := by
  refine ⟨patch_init_loop_length _ _ _ _ _, ?_, ?_⟩
  · intro i hi h
    rw [memcmp_eq_iff] at h ⊢
    exact patch_init_loop_patches size mem size false i (Nat.le_refl _) (by omega) h
  · intro i hi
    rw [Bool.eq_false_iff]
    intro h
    rw [memcmp_eq_iff] at h
    exact patch_init_loop_clean size mem size false i (Nat.le_refl _) hi h

/-- Claim C1, at the 12-byte image "a/sepolicy\0b": the occurrence at offset 1
is redirected. -/
theorem patch_init_redirects_every_sepolicy_witness :
    memcmp_eq init_sample 1 MONOPOLICY = true ∧
    memcmp_eq (patch_init init_sample 12).1 1 PATCHPOLICY = true ∧
    memcmp_eq (patch_init init_sample 12).1 1 MONOPOLICY = false :=
  ⟨by decide,
   (patch_init_redirects_every_sepolicy init_sample 12).2.1 1 (by decide) (by decide),
   (patch_init_redirects_every_sepolicy init_sample 12).2.2 1 (by decide)⟩

/-! The libselinux pass -/

theorem prefix_drop_both (A B : List Nat) (e : Nat) (h : A <+: B) : A.drop e <+: B.drop e := by
  obtain ⟨s, rfl⟩ := h
  rw [List.drop_append_eq_append_drop]
  exact List.prefix_append _ _

/-- The libselinux loop stops at the first match: started at or before the first
offset that holds "/sepolicy\0", it overwrites those 10 bytes and nothing else. -/
theorem patch_lib_loop_first :
    ∀ (fuel : Nat) (mem : List Nat) (eof p i : Nat),
      eof - p ≤ fuel → p ≤ i → i < eof → memcmp_eq mem i MONOPOLICY = true →
      (∀ j, p ≤ j → j < i → memcmp_eq mem j MONOPOLICY = false) →
        patch_lib_loop fuel mem eof p = memcpy mem i PATCHPOLICY := by
  intro fuel
  induction fuel with
  | zero => intro mem eof p i hf hp hi; omega
  | succ fuel ih =>
    intro mem eof p i hf hp hi hocc hfirst
    simp only [patch_lib_loop, if_pos (show p < eof by omega)]
    by_cases hpi : p = i
    · subst hpi; rw [if_pos hocc]
    · rw [hfirst p (Nat.le_refl _) (by omega)]
      simp only [Bool.false_eq_true, if_false]
      exact ih mem eof (p + 1) i (by omega) (by omega) hi hocc
        (fun j hj1 hj2 => hfirst j (by omega) hj2)

/-- Without a match below the loop bound the libselinux loop changes nothing. -/
theorem patch_lib_loop_none :
    ∀ (fuel : Nat) (mem : List Nat) (eof p : Nat),
      (∀ j, p ≤ j → j < eof → memcmp_eq mem j MONOPOLICY = false) →
        patch_lib_loop fuel mem eof p = mem := by
  intro fuel
  induction fuel with
  | zero => intro mem eof p _; rfl
  | succ fuel ih =>
    intro mem eof p h
    simp only [patch_lib_loop]
    split
    · rename_i hp
      rw [h p (Nat.le_refl _) hp]
      simp only [Bool.false_eq_true, if_false]
      exact ih mem eof (p + 1) (fun j hj1 hj2 => h j (by omega) hj2)
    · rfl

/-- Replacing the first "/sepolicy\0" by "/sbin/.se\0" neither creates nor
removes an occurrence at any other offset. -/
theorem mono_elsewhere (pre post : List Nat) (k : Nat) (hk : k ≠ pre.length)
    (hfirst : ∀ j, j < pre.length → ¬ MONOPOLICY <+: (pre ++ (MONOPOLICY ++ post)).drop j) :
    MONOPOLICY <+: (pre ++ (PATCHPOLICY ++ post)).drop k ↔
      MONOPOLICY <+: (pre ++ (MONOPOLICY ++ post)).drop k := by
  rcases Nat.lt_or_gt_of_ne hk with hlt | hgt
  · constructor
    · intro h
      exfalso
      rw [List.drop_append_of_le_length (Nat.le_of_lt hlt)] at h
      by_cases he : 10 ≤ pre.length - k
      · have h1 : MONOPOLICY <+: pre.drop k :=
          List.prefix_of_prefix_length_le h (List.prefix_append _ _)
            (by simp [MONOPOLICY_length]; omega)
        apply hfirst k hlt
        rw [List.drop_append_of_le_length (Nat.le_of_lt hlt)]
        exact h1.trans (List.prefix_append _ _)
      · have h2 := prefix_drop_both _ _ (pre.length - k) h
        rw [List.drop_append_eq_append_drop] at h2
        have h3 : (pre.drop k).length = pre.length - k := by simp
        rw [List.drop_of_length_le (Nat.le_of_eq h3), h3, Nat.sub_self] at h2
        simp only [List.nil_append, List.drop_zero] at h2
        have hpos : 0 < pre.length - k := by omega
        have hlt10 : pre.length - k < 10 := by omega
        generalize pre.length - k = e at h2 hpos hlt10
        interval_cases e <;> simp [MONOPOLICY, PATCHPOLICY] at h2
    · intro h
      exact absurd h (hfirst k hlt)
  · obtain ⟨d, rfl⟩ : ∃ d, k = pre.length + d := ⟨k - pre.length, by omega⟩
    rw [List.drop_append, List.drop_append]
    by_cases hd : d < 10
    · constructor
      · intro h; exact absurd h (no_mono_in_patch post d hd)
      · intro h; exact absurd h (no_mono_in_mono post d (by omega) hd)
    · obtain ⟨j, rfl⟩ : ∃ j, d = 10 + j := ⟨d - 10, by omega⟩
      rw [drop_append_len _ _ 10 j PATCHPOLICY_length,
        drop_append_len _ _ 10 j MONOPOLICY_length]

/-- Claim C9, refuted as stated. On the 20-byte library image
"/sepolicy\0/sepolicy\0" the input holds "/sepolicy\0" at offset 10, and so
does the patched buffer: the pass stops after the first match. -/
theorem patch_libselinux_second_occurrence_stays :
    memcmp_eq (MONOPOLICY ++ MONOPOLICY) 10 MONOPOLICY = true ∧
    memcmp_eq (patch_libselinux (MONOPOLICY ++ MONOPOLICY) 20) 10 PATCHPOLICY = false ∧
    memcmp_eq (patch_libselinux (MONOPOLICY ++ MONOPOLICY) 20) 10 MONOPOLICY = true := by
  decide

/-- Claim C9, amended. The libselinux pass of `SARBase::patch_rootdir`, for every
library buffer: if `i` is the first offset below the buffer end at which the
input holds "/sepolicy\0", the patched buffer is the input with exactly those
10 bytes replaced by "/sbin/.se\0" (so it holds `PATCHPOLICY` at `i`), and
every other offset holds "/sepolicy\0" in the patched buffer exactly when it
does in the input; if no offset below the buffer end holds "/sepolicy\0", the
buffer is written back unchanged. -/
theorem patch_libselinux_redirects_first (mem : List Nat) (size : Nat) :
    (∀ i, i < size → memcmp_eq mem i MONOPOLICY = true →
      (∀ j, j < i → memcmp_eq mem j MONOPOLICY = false) →
        patch_libselinux mem size = mem.take i ++ PATCHPOLICY ++ mem.drop (i + 10) ∧
        memcmp_eq (patch_libselinux mem size) i PATCHPOLICY = true ∧
        (∀ k, k ≠ i →
          memcmp_eq (patch_libselinux mem size) k MONOPOLICY = memcmp_eq mem k MONOPOLICY)) ∧
    ((∀ j, j < size → memcmp_eq mem j MONOPOLICY = false) →
      patch_libselinux mem size = mem) := by
  constructor
  · intro i hi hocc hfirst
    have hout : patch_libselinux mem size = mem.take i ++ PATCHPOLICY ++ mem.drop (i + 10) := by
      unfold patch_libselinux
      rw [patch_lib_loop_first size mem size 0 i (by omega) (Nat.zero_le _) hi hocc
        (fun j _ hj => hfirst j hj)]
      simp [memcpy, PATCHPOLICY_length]
    obtain ⟨post, hpost⟩ := (memcmp_eq_iff _ _ _).mp hocc
    have hlen : i + 10 ≤ mem.length := by
      have := congrArg List.length hpost
      simp [MONOPOLICY_length] at this
      omega
    have hpre : (mem.take i).length = i := by simp; omega
    have hmem : mem = mem.take i ++ (MONOPOLICY ++ post) := by
      rw [hpost, List.take_append_drop]
    have hdrop : mem.drop (i + 10) = post := by
      rw [← List.drop_drop, ← hpost]
      exact drop_append_len MONOPOLICY post 10 0 MONOPOLICY_length
    rw [hout, hdrop, List.append_assoc]
    refine ⟨rfl, ?_, ?_⟩
    · rw [memcmp_eq_iff]
      have := drop_append_len (mem.take i) (PATCHPOLICY ++ post) i 0 hpre
      rw [Nat.add_zero] at this
      rw [this]
      exact List.prefix_append _ _
    · intro k hk
      have hiff := mono_elsewhere (mem.take i) post k (by rw [hpre]; exact hk)
        (by
          intro j hj
          rw [hpre] at hj
          rw [← hmem, ← memcmp_eq_iff, hfirst j hj]
          simp)
      rw [← hmem] at hiff
      rw [Bool.eq_iff_iff, memcmp_eq_iff, memcmp_eq_iff]
      exact hiff
  · intro h
    exact patch_lib_loop_none size mem size 0 (fun j _ hj => h j hj)

/-- Claim C9, amended, at the library image "a/sepolicy\0b" of 12 bytes. -/
theorem patch_libselinux_redirects_first_witness :
    memcmp_eq init_sample 1 MONOPOLICY = true ∧
    patch_libselinux init_sample 12 =
      init_sample.take 1 ++ PATCHPOLICY ++ init_sample.drop (1 + 10) :=
  ⟨by decide,
   ((patch_libselinux_redirects_first init_sample 12).1 1 (by decide) (by decide)
      (by decide)).1⟩

/-! The socket-name pass -/

theorem patch_socket_loop_none (sock : List Nat) (gen : Nat → List Nat) :
    ∀ (fuel : Nat) (buf : List Nat) (size i k : Nat),
      (∀ j, i ≤ j → memcmp_eq buf j sock = false) →
        patch_socket_loop sock gen fuel buf size i k = buf := by
  intro fuel
  induction fuel with
  | zero => intro buf size i k _; rfl
  | succ fuel ih =>
    intro buf size i k h
    simp only [patch_socket_loop]
    split
    · rw [h i (Nat.le_refl _)]
      simp only [Bool.false_eq_true, if_false]
      exact ih buf size (i + 1) k (fun j hj => h j (by omega))
    · rfl

theorem memcmp_eq_short (buf : List Nat) (j : Nat) (lit : List Nat) (h0 : 0 < lit.length)
    (h : buf.length < j + lit.length) : memcmp_eq buf j lit = false := by
  rw [Bool.eq_false_iff]
  intro hm
  have := ((memcmp_eq_iff _ _ _).mp hm).length_le
  simp at this
  omega

/-- Claim C8, the code at the failing input. For every value of `MAIN_SOCKET`
(at least one byte, and at least as long as what `gen_rand_str` stores) and
every output of the generator: on the buffer made of two adjacent copies of
`MAIN_SOCKET`, `patch_socket_name` replaces the first copy and returns with the
second copy, the one that starts at the first byte after the match, still in
the buffer. After a match the cursor is advanced by `sizeof(MAIN_SOCKET)` and
then by the `++i` of the loop, one byte too far. -/
theorem patch_socket_name_skips_adjacent (sock : List Nat) (gen : Nat → List Nat)
    (h0 : 0 < sock.length) (hg : (gen 0).length ≤ sock.length) :
    memcmp_eq (patch_socket_name sock gen (sock ++ sock)) sock.length sock = true := by
  have hm : memcmp_eq (sock ++ sock) 0 sock = true := by simp [memcmp_eq]
  have hlen : (memcpy (sock ++ sock) 0 (gen 0)).length = sock.length + sock.length := by
    simp [memcpy]; omega
  have hrun : patch_socket_name sock gen (sock ++ sock) = memcpy (sock ++ sock) 0 (gen 0) := by
    unfold patch_socket_name
    obtain ⟨f, hf⟩ : ∃ f, (sock ++ sock).length = f + 1 :=
      ⟨(sock ++ sock).length - 1, by simp; omega⟩
    rw [hf]
    simp only [patch_socket_loop, if_pos (Nat.succ_pos f), hm, if_true]
    apply patch_socket_loop_none
    intro j hj
    apply memcmp_eq_short _ _ _ h0
    rw [hlen]
    omega
  rw [hrun, memcmp_eq_iff]
  have hd : (memcpy (sock ++ sock) 0 (gen 0)).drop sock.length = sock := by
    simp only [memcpy, List.take_zero, List.nil_append, Nat.zero_add]
    rw [List.drop_append_eq_append_drop, List.drop_of_length_le hg, List.nil_append,
      List.drop_drop]
    have : (gen 0).length + (sock.length - (gen 0).length) = sock.length + 0 := by omega
    rw [this, List.drop_append]
    rfl
  rw [hd]

/-- Claim C8, at the 66-byte buffer of two adjacent sample names. -/
theorem patch_socket_name_skips_adjacent_witness :
    memcmp_eq (patch_socket_name sample_socket sample_gen (sample_socket ++ sample_socket))
      sample_socket.length sample_socket = true :=
  patch_socket_name_skips_adjacent sample_socket sample_gen (by decide) (by decide)

/-! Proofs: the overlay merge engine -/

/-- Below a staged directory whose live path does not exist nothing is merged. -/
theorem staged_entries_pruned (access : String → Bool) :
    ∀ (L : Listing) (sdir ddir : String) (through : List String),
      (∃ p ∈ through, access p = false) →
        (staged_entries sdir ddir through L).filter (is_merged access) = [] := by
  intro L
  induction L with
  | done => intro sdir ddir through _; rfl
  | other d_name rest ih =>
    intro sdir ddir through h
    simp only [staged_entries]
    split
    · exact ih sdir ddir through h
    · obtain ⟨p, hp, hpf⟩ := h
      have hq : is_merged access
          { src := sdir ++ "/" ++ d_name, dest := ddir ++ "/" ++ d_name, is_dir := false,
            through := through } = false := by
        simp only [is_merged, Bool.and_eq_false_iff]
        right
        rw [Bool.eq_false_iff]
        intro hall
        rw [List.all_eq_true] at hall
        rw [hall p hp] at hpf
        exact Bool.noConfusion hpf
      rw [List.filter_cons_of_neg (by simp [hq])]
      exact ih sdir ddir through ⟨p, hp, hpf⟩
  | dir d_name sub rest ihs ihr =>
    intro sdir ddir through h
    simp only [staged_entries]
    split
    · exact ihr sdir ddir through h
    · obtain ⟨p, hp, hpf⟩ := h
      rw [List.filter_cons_of_neg (by simp [is_merged]), List.filter_append,
        ihs _ _ _ ⟨p, List.mem_append_left _ hp, hpf⟩, ihr _ _ _ ⟨p, hp, hpf⟩]
      rfl

/-- The run of `magic_mount` is one `bind_and_record` per merged entry, in order. -/
theorem magic_mount_eq_foldl (access : String → Bool) :
    ∀ (L : Listing) (sdir ddir : String) (through : List String) (st : MountState),
      (∀ p ∈ through, access p = true) →
        magic_mount access sdir ddir L st =
          ((staged_entries sdir ddir through L).filter (is_merged access)).foldl
            (fun s e => bind_and_record s e.src e.dest) st := by
  intro L
  induction L with
  | done => intro sdir ddir through st _; rfl
  | other d_name rest ih =>
    intro sdir ddir through st h
    simp only [staged_entries, magic_mount]
    split
    · exact ih sdir ddir through st h
    · have hall : through.all access = true := by
        rw [List.all_eq_true]; exact h
      by_cases ha : access (ddir ++ "/" ++ d_name) = true
      · rw [if_pos ha, List.filter_cons_of_pos (by simp [is_merged, ha, hall]),
          List.foldl_cons]
        exact ih sdir ddir through _ h
      · rw [if_neg ha, List.filter_cons_of_neg (by simp [is_merged, ha])]
        exact ih sdir ddir through st h
  | dir d_name sub rest ihs ihr =>
    intro sdir ddir through st h
    simp only [staged_entries, magic_mount]
    split
    · exact ihr sdir ddir through st h
    · rw [List.filter_cons_of_neg (by simp [is_merged]), List.filter_append,
        List.foldl_append]
      by_cases ha : access (ddir ++ "/" ++ d_name) = true
      · rw [if_pos ha]
        rw [ihr sdir ddir through _ h]
        rw [ihs (sdir ++ "/" ++ d_name) (ddir ++ "/" ++ d_name)
          (through ++ [ddir ++ "/" ++ d_name]) st
          (by
            intro p hp
            rcases List.mem_append.mp hp with hp | hp
            · exact h p hp
            · rw [List.mem_singleton.mp hp]; exact ha)]
      · rw [if_neg ha]
        have hf : access (ddir ++ "/" ++ d_name) = false := by simpa using ha
        rw [staged_entries_pruned access sub _ _ _
          ⟨ddir ++ "/" ++ d_name, List.mem_append_right _ (List.mem_singleton.mpr rfl), hf⟩]
        exact ihr sdir ddir through st h

theorem foldl_bind_mounts (es : List Staged) (st : MountState) :
    (es.foldl (fun s e => bind_and_record s e.src e.dest) st).mounts =
      st.mounts ++ es.map (fun e => (e.src, e.dest)) := by
  induction es generalizing st with
  | nil => simp
  | cons e es ih =>
    rw [List.foldl_cons, ih]
    simp [bind_and_record]

theorem foldl_bind_list (es : List Staged) (st : MountState) :
    (es.foldl (fun s e => bind_and_record s e.src e.dest) st).magic_mount_list =
      es.foldl (fun s e => s ++ e.dest ++ "\n") st.magic_mount_list := by
  induction es generalizing st with
  | nil => simp
  | cons e es ih =>
    rw [List.foldl_cons, ih]
    simp [bind_and_record]

/-- Claim C2. For every staging tree (the listing `L` of the directory `staging`)
and every live tree (`access`), `magic_mount(staging, "")` started with no mount
made and an empty record:
* makes exactly one bind mount `(src, dest)` for each staged entry that is not
  a directory, whose live path exists and that is reached through staged
  directories whose live paths all exist, in listing order, and no other
  (entries are the nodes of the staging tree, each listed once by
  `staged_entries`);
* appends to `magic_mount_list` exactly the line `dest ++ "\n"` of each of
  those entries, in the same order;
* so no mount it makes has a destination that does not exist in the live tree,
  and none comes from a staged directory or from below an entry without live
  counterpart. -/
theorem magic_mount_merges_exactly (access : String → Bool) (staging : String) (L : Listing) :
    (magic_mount access staging "" L ⟨[], ""⟩).mounts =
      ((staged_entries staging "" [] L).filter (is_merged access)).map
        (fun e => (e.src, e.dest)) ∧
    (magic_mount access staging "" L ⟨[], ""⟩).magic_mount_list =
      ((staged_entries staging "" [] L).filter (is_merged access)).foldl
        (fun s e => s ++ e.dest ++ "\n") "" ∧
    (∀ m ∈ (magic_mount access staging "" L ⟨[], ""⟩).mounts, access m.2 = true) ∧
    (∀ e ∈ staged_entries staging "" [] L,
      is_merged access e = true ↔
        (e.is_dir = false ∧ access e.dest = true ∧ ∀ p ∈ e.through, access p = true)) := by
  have hrun := magic_mount_eq_foldl access L staging "" [] ⟨[], ""⟩ (by simp)
  have hm := foldl_bind_mounts ((staged_entries staging "" [] L).filter (is_merged access))
    ⟨[], ""⟩
  have hl := foldl_bind_list ((staged_entries staging "" [] L).filter (is_merged access))
    ⟨[], ""⟩
  rw [← hrun] at hm hl
  simp only [List.nil_append] at hm
  refine ⟨hm, hl, ?_, ?_⟩
  · intro m hmem
    rw [hm] at hmem
    obtain ⟨e, he, rfl⟩ := List.mem_map.mp hmem
    have := (List.mem_filter.mp he).2
    simp only [is_merged, Bool.and_eq_true] at this
    exact this.1.2
  · intro e _
    simp [is_merged, and_assoc]

/-- Claim C2, on the sample trees: the mount of `init` goes onto a path that the
live tree has. -/
theorem magic_mount_merges_exactly_witness :
    ("/dev/.ovl/init", "/init") ∈
      (magic_mount live_sample "/dev/.ovl" "" staging_sample ⟨[], ""⟩).mounts ∧
    live_sample "/init" = true :=
  ⟨by decide,
   (magic_mount_merges_exactly live_sample "/dev/.ovl" staging_sample).2.2.1
      ("/dev/.ovl/init", "/init") (by decide)⟩

/-- The merge of the sample staging tree: three bind mounts; nothing for
`libnew.so` and nothing below `overlay.d`, which the live tree does not have. -/
theorem magic_mount_sample :
    magic_mount live_sample "/dev/.ovl" "" staging_sample ⟨[], ""⟩ =
      { mounts := [("/dev/.ovl/init", "/init"),
                   ("/dev/.ovl/system/lib/libselinux.so", "/system/lib/libselinux.so"),
                   ("/dev/.ovl/init.rc", "/init.rc")],
        magic_mount_list := "/init\n/system/lib/libselinux.so\n/init.rc\n" } := by
  decide

/-! Proofs: the boot stages -/

theorem mounted_iff (mounts : List (List Char)) (b : Bool) :
    mounts.foldl
      (fun mnt s =>
        if str_contains s " /data ".toList && !str_contains s "tmpfs".toList then true else mnt)
      b = true ↔
    (b = true ∨ ∃ s ∈ mounts,
      str_contains s " /data ".toList = true ∧ str_contains s "tmpfs".toList = false) := by
  induction mounts generalizing b with
  | nil => simp
  | cons s rest ih =>
    rw [List.foldl_cons, ih]
    by_cases h : (str_contains s " /data ".toList && !str_contains s "tmpfs".toList) = true
    · rw [if_pos h]
      simp only [Bool.and_eq_true, Bool.not_eq_true'] at h
      constructor
      · intro _
        exact Or.inr ⟨s, List.mem_cons_self _ _, h.1, h.2⟩
      · intro _
        exact Or.inl rfl
    · rw [if_neg h]
      simp only [Bool.and_eq_true, Bool.not_eq_true', not_and, Bool.not_eq_false] at h
      constructor
      · rintro (hb | ⟨x, hx, h1, h2⟩)
        · exact Or.inl hb
        · exact Or.inr ⟨x, List.mem_cons_of_mem _ hx, h1, h2⟩
      · rintro (hb | ⟨x, hx, h1, h2⟩)
        · exact Or.inl hb
        · rcases List.mem_cons.mp hx with rfl | hx
          · rw [h h1] at h2; exact Bool.noConfusion h2
          · exact Or.inr ⟨x, hx, h1, h2⟩

/-- The value of `check_data`, case by case. -/
theorem check_data_iff (mounts : List (List Char)) (crypto vold : List Char) :
    check_data mounts crypto vold = true ↔
      (∃ s ∈ mounts,
        str_contains s " /data ".toList = true ∧ str_contains s "tmpfs".toList = false) ∧
      (crypto = [] ∨ crypto = "unencrypted".toList ∨
        (crypto ≠ [] ∧ crypto ≠ "unencrypted".toList ∧ vold ≠ [])) := by
  have key := mounted_iff mounts false
  simp only [Bool.false_eq_true, false_or] at key
  have hu0 : "unencrypted".toList ≠ [] := by decide
  unfold check_data
  simp only []
  generalize "unencrypted".toList = u at hu0 ⊢
  generalize (∃ s ∈ mounts,
    str_contains s " /data ".toList = true ∧ str_contains s "tmpfs".toList = false) = M at key ⊢
  generalize mounts.foldl
      (fun mnt s =>
        if str_contains s " /data ".toList && !str_contains s "tmpfs".toList then true else mnt)
      false = m at key ⊢
  cases m with
  | false =>
    have hM : ¬ M := fun h => Bool.noConfusion (key.mpr h)
    simp [hM]
  | true =>
    have hM : M := key.mp rfl
    simp only [if_true, hM, true_and]
    cases crypto with
    | nil => simp
    | cons c cs =>
      by_cases hu : (c :: cs) = u
      · simp [hu]
      · cases vold with
        | nil => simp [hu]
        | cons v vs => simp [hu]

/-- Claim C10, refuted as stated. With `/data` mounted, `ro.crypto.state` not set
and vold not running, `check_data` returns true, although `ro.crypto.state` is
not "unencrypted" and `init.svc.vold` is empty. -/
theorem check_data_true_when_crypto_state_unset :
    check_data mounts_sample [] [] = true ∧ ¬ check_data_as_claimed mounts_sample [] [] := by
  constructor
  · decide
  · rintro ⟨_, h | ⟨_, h⟩⟩
    · exact absurd h (by decide)
    · exact h rfl

/-- Claim C10, amended. `check_data` returns true if and only if some line of
`/proc/mounts` contains " /data " and does not contain "tmpfs", and
`ro.crypto.state` is not set (empty), or is "unencrypted", or has another value
while `init.svc.vold` is non-empty. When it returns false, `post_fs_data` only
acknowledges the client, remounts `/` read-only if `REMOUNT_ROOT` is set,
creates the unblock file and leaves the thread: no `unlock_blocks`, no
`magisk_env` (hence no mirror), no script, and the BootFlags are unchanged. -/
theorem check_data_decides_the_bypass (env : Env) (d : Daemon) :
    (check_data env.mounts env.crypto_state env.svc_vold = true ↔
      (∃ s ∈ env.mounts,
        str_contains s " /data ".toList = true ∧ str_contains s "tmpfs".toList = false) ∧
      (env.crypto_state = [] ∨ env.crypto_state = "unencrypted".toList ∨
        (env.crypto_state ≠ [] ∧ env.crypto_state ≠ "unencrypted".toList ∧
          env.svc_vold ≠ []))) ∧
    (check_data env.mounts env.crypto_state env.svc_vold = false →
      (post_fs_data env d).trace =
        d.trace ++ [.ack 0, .close_client] ++
          (if env.remount_root then [.remount_root_ro] else []) ++
          [.create_unblock_file, .thread_exit] ∧
      (post_fs_data env d).no_secure_dir = d.no_secure_dir ∧
      (post_fs_data env d).pfs_done = d.pfs_done) := by
  refine ⟨check_data_iff _ _ _, ?_⟩
  intro h
  cases hr : env.remount_root <;>
    simp [post_fs_data, unblock_boot_process, Daemon.emit, h, hr]

/-- Claim C10, amended, with an empty `/proc/mounts`. -/
theorem check_data_decides_the_bypass_witness :
    check_data [] env_sample.crypto_state env_sample.svc_vold = false ∧
    (post_fs_data { env_sample with mounts := [] } (Daemon.start [])).trace =
      [.ack 0, .close_client, .create_unblock_file, .thread_exit] :=
  ⟨by decide,
   ((check_data_decides_the_bypass { env_sample with mounts := [] } (Daemon.start [])).2
      (by decide)).1⟩

/-- Claim C5. From the initial BootFlags, when `post_fs_data` runs with
`check_data` succeeding and the secure directory absent, it sets
`no_secure_dir` and leaves `pfs_done` false. A `late_start` that follows then
acknowledges the client, starts log capture, creates the secure directory
exactly if it is still absent, calls `reboot`, and does nothing after it,
whether or not `reboot()` returns: in the whole trace there is no run of a
`service.d` script or of a module service script, and `module_list` is as
`post_fs_data` found it. -/
theorem absent_secure_dir_ends_in_reboot (env1 env2 : Env) (ml : List String)
    (hdata : check_data env1.mounts env1.crypto_state env1.svc_vold = true)
    (hsec : env1.secure_dir = false) :
    (post_fs_data env1 (Daemon.start ml)).no_secure_dir = true ∧
    (post_fs_data env1 (Daemon.start ml)).pfs_done = false ∧
    (late_start env2 (post_fs_data env1 (Daemon.start ml))).trace =
      (dump_logs env2
          ((post_fs_data env1 (Daemon.start ml)).emit [.ack 0, .close_client])).trace ++
        (if env2.secure_dir then [] else [.mkdir_secure_dir]) ++ [.reboot] ∧
    (∀ e ∈ (late_start env2 (post_fs_data env1 (Daemon.start ml))).trace,
      e.is_script = false) ∧
    (late_start env2 (post_fs_data env1 (Daemon.start ml))).module_list = ml := by
  cases hr : env1.remount_root <;> cases hl : env1.logcat_ok <;>
    cases hl2 : env2.logcat_ok <;> cases hs2 : env2.secure_dir <;>
    cases hrr : env2.reboot_returns <;>
    simp [post_fs_data, late_start, dump_logs, unblock_boot_process, Daemon.emit,
      Daemon.start, Event.is_script, hdata, hsec, hr, hl, hl2, hs2, hrr]

/-- Claim C5, in the sample environment with the secure directory removed. -/
theorem absent_secure_dir_ends_in_reboot_witness :
    check_data env_sample.mounts env_sample.crypto_state env_sample.svc_vold = true ∧
    (post_fs_data { env_sample with secure_dir := false } (Daemon.start [])).no_secure_dir
      = true ∧
    (∀ e ∈ (late_start env_sample
        (post_fs_data { env_sample with secure_dir := false } (Daemon.start []))).trace,
      e.is_script = false) :=
  ⟨by decide,
   (absent_secure_dir_ends_in_reboot { env_sample with secure_dir := false } env_sample []
      (by decide) (by decide)).1,
   (absent_secure_dir_ends_in_reboot { env_sample with secure_dir := false } env_sample []
      (by decide) (by decide)).2.2.2.1⟩

/-- Claim C6. For every run of `post_fs_data` from the initial BootFlags.
If `check_data` succeeds, the secure directory exists and `magisk_env` returns
true: the post-fs-data.d scripts are run; `handle_modules` is called exactly
once when the disable marker is absent and not at all when it is present; the
first call of `handle_modules`, if any, comes after the scripts; and `pfs_done`
is true at the end. If one of the three checks fails: `handle_modules` is not
called, no script is run and `pfs_done` stays false. -/
theorem post_fs_data_applies_modules_once (env : Env) (ml : List String) :
    ((check_data env.mounts env.crypto_state env.svc_vold = true ∧
        env.secure_dir = true ∧ env.magisk_env_ok = true) →
      (post_fs_data env (Daemon.start ml)).trace.count .handle_modules =
        (if env.disable_file then 0 else 1) ∧
      .exec_common_script "post-fs-data" ∈
        (post_fs_data env (Daemon.start ml)).trace.takeWhile
          (fun e => e != .handle_modules) ∧
      (post_fs_data env (Daemon.start ml)).pfs_done = true) ∧
    (¬ (check_data env.mounts env.crypto_state env.svc_vold = true ∧
        env.secure_dir = true ∧ env.magisk_env_ok = true) →
      (post_fs_data env (Daemon.start ml)).trace.count .handle_modules = 0 ∧
      (∀ e ∈ (post_fs_data env (Daemon.start ml)).trace, e.is_script = false) ∧
      (post_fs_data env (Daemon.start ml)).pfs_done = false) := by
  constructor
  · rintro ⟨hdata, hsec, hme⟩
    cases hr : env.remount_root <;> cases hl : env.logcat_ok <;>
      cases hd : env.disable_file <;>
      simp [post_fs_data, dump_logs, unblock_boot_process, core_only, Daemon.emit,
        Daemon.start, hdata, hsec, hme, hr, hl, hd, List.takeWhile] <;> decide
  · intro hnot
    cases hdata : check_data env.mounts env.crypto_state env.svc_vold <;>
      cases hsec : env.secure_dir <;> cases hme : env.magisk_env_ok <;>
      cases hr : env.remount_root <;> cases hl : env.logcat_ok <;>
      simp [hdata, hsec, hme] at hnot <;>
      simp [post_fs_data, dump_logs, unblock_boot_process, core_only, Daemon.emit,
        Daemon.start, Event.is_script, hdata, hsec, hme, hr, hl]

/-- Claim C6, in the sample environment. -/
theorem post_fs_data_applies_modules_once_witness :
    (check_data env_sample.mounts env_sample.crypto_state env_sample.svc_vold = true ∧
        env_sample.secure_dir = true ∧ env_sample.magisk_env_ok = true) ∧
    (post_fs_data env_sample (Daemon.start [])).trace.count .handle_modules = 1 ∧
    (post_fs_data env_sample (Daemon.start [])).pfs_done = true :=
  ⟨by decide,
   ((post_fs_data_applies_modules_once env_sample []).1 (by decide)).1,
   ((post_fs_data_applies_modules_once env_sample []).1 (by decide)).2.2⟩

/-- Claim C7. Whenever `pfs_done` is false and `no_secure_dir` is false:
`late_start` does nothing but acknowledge the client (`write_int(client, 0)`,
`close(client)`) and call `dump_logs`, so it runs no script, leaves
`module_list` and the BootFlags as they are, and adds to the trace only the
acknowledgement and actions of log capture; `boot_complete` does nothing but
acknowledge the client, so no rename of the manager package, no stub
extraction and no installation. -/
theorem late_stages_are_dropped (env : Env) (d : Daemon)
    (hpfs : d.pfs_done = false) (hsec : d.no_secure_dir = false) :
    late_start env d = dump_logs env (d.emit [.ack 0, .close_client]) ∧
    (late_start env d).module_list = d.module_list ∧
    (late_start env d).pfs_done = false ∧
    (late_start env d).no_secure_dir = false ∧
    (∃ logs, (late_start env d).trace = d.trace ++ [.ack 0, .close_client] ++ logs ∧
      ∀ e ∈ logs, e.is_log_capture = true) ∧
    boot_complete env d = d.emit [.ack 0, .close_client] := by
  cases hl : env.logcat_ok <;> cases hld : d.log_dump <;>
    simp [late_start, boot_complete, dump_logs, Daemon.emit, hpfs, hsec, hl, hld,
      Event.is_log_capture]

/-- Claim C7, at the initial daemon in the sample environment. -/
theorem late_stages_are_dropped_witness :
    (late_start env_sample (Daemon.start ["m1"])).module_list = ["m1"] ∧
    boot_complete env_sample (Daemon.start ["m1"]) =
      (Daemon.start ["m1"]).emit [.ack 0, .close_client] :=
  ⟨(late_stages_are_dropped env_sample (Daemon.start ["m1"]) rfl rfl).2.1,
   (late_stages_are_dropped env_sample (Daemon.start ["m1"]) rfl rfl).2.2.2.2.2⟩

/-! Proofs: the init.rc patcher -/

theorem str_contains_iff (s ss : List Char) : str_contains s ss = true ↔ ss <:+: s := by
  induction s with
  | nil => simp [str_contains, List.isEmpty_iff]
  | cons c s ih =>
    rw [str_contains, Bool.or_eq_true, ih, List.isPrefixOf_iff_prefix, List.infix_cons_iff]

theorem str_contains_append (s t ss : List Char) (h : str_contains s ss = true) :
    str_contains (s ++ t) ss = true := by
  rw [str_contains_iff] at h ⊢
  exact h.trans (List.prefix_append s t).isInfix

theorem c_str_of_no_nul (l : List Char) (h : Char.ofNat 0 ∉ l) : c_str l = l := by
  induction l with
  | nil => rfl
  | cons c l ih =>
    have hc : c ≠ Char.ofNat 0 := fun e => h (e ▸ List.mem_cons_self _ _)
    have hl : Char.ofNat 0 ∉ l := fun e => h (List.mem_cons_of_mem _ e)
    have := ih hl
    unfold c_str at this ⊢
    rw [List.takeWhile_cons_of_pos (by simpa using hc), this]

theorem foldl_patch_line (lines : List (List Char)) (rc : List Char)
    (h : ∀ l ∈ lines, Char.ofNat 0 ∉ l) :
    lines.foldl patch_init_rc_line rc = rc ++ (lines.filterMap kept_line).flatten := by
  induction lines generalizing rc with
  | nil => simp
  | cons l lines ih =>
    rw [List.foldl_cons, ih _ (fun x hx => h x (List.mem_cons_of_mem _ hx))]
    unfold patch_init_rc_line kept_line
    by_cases hv : str_contains l VAULTKEEPER = true
    · simp [hv]
    · by_cases hf : str_starts l FLASH_RECOVERY = true
      · simp [hv, hf]
      · simp [hv, hf, c_str_of_no_nul l (h l (List.mem_cons_self _ _))]

/-- The passthrough part is the kept lines, one after the other. -/
theorem passthrough_eq (lines : List (List Char)) (h : ∀ l ∈ lines, Char.ofNat 0 ∉ l) :
    passthrough lines = (lines.filterMap kept_line).flatten := by
  unfold passthrough
  rw [foldl_patch_line lines [] h]
  rfl

/-! The lines of the passthrough text -/

theorem text_lines_closed (body t : List Char) (h : '\n' ∉ body) :
    text_lines (body ++ '\n' :: t) = (body ++ ['\n']) :: text_lines t := by
  induction body with
  | nil => simp [text_lines]
  | cons c body ih =>
    have hc : c ≠ '\n' := fun e => h (e ▸ List.mem_cons_self _ _)
    have hb : '\n' ∉ body := fun e => h (List.mem_cons_of_mem _ e)
    simp [text_lines, hc, ih hb]

theorem text_lines_open (l : List Char) (h : open_line l) : text_lines l = [l] := by
  obtain ⟨hne, hnl⟩ := h
  induction l with
  | nil => exact absurd rfl hne
  | cons c l ih =>
    have hc : c ≠ '\n' := fun e => hnl (e ▸ List.mem_cons_self _ _)
    have hb : '\n' ∉ l := fun e => hnl (List.mem_cons_of_mem _ e)
    cases l with
    | nil => simp [text_lines, hc]
    | cons d l =>
      have := ih (List.cons_ne_nil _ _) hb
      simp only [text_lines, hc, if_false] at this ⊢
      rw [this]

theorem lines_shaped_cons (l : List Char) (ls : List (List Char)) (hl : closed_line l)
    (hs : lines_shaped ls) : lines_shaped (l :: ls) := by
  cases ls with
  | nil => exact Or.inl hl
  | cons l2 ls => exact ⟨hl, hs⟩

theorem lines_shaped_tail (l : List Char) (ls : List (List Char))
    (h : lines_shaped (l :: ls)) : lines_shaped ls := by
  cases ls with
  | nil => trivial
  | cons l2 ls => exact h.2

theorem lines_shaped_head (l : List Char) (ls : List (List Char))
    (h : lines_shaped (l :: ls)) : closed_line l ∨ (open_line l ∧ ls = []) := by
  cases ls with
  | nil => exact h.imp id (fun x => ⟨x, rfl⟩)
  | cons l2 ls => exact Or.inl h.1

/-- The lines of a text have the shape of lines. -/
theorem text_lines_shaped (t : List Char) : lines_shaped (text_lines t) := by
  induction t with
  | nil => trivial
  | cons c cs ih =>
    by_cases hc : c = '\n'
    · subst hc
      simp only [text_lines, if_true]
      exact lines_shaped_cons _ _ ⟨[], rfl, by simp⟩ ih
    · simp only [text_lines, hc, if_false]
      cases hcs : text_lines cs with
      | nil => exact Or.inr ⟨List.cons_ne_nil _ _, by simpa using Ne.symm hc⟩
      | cons l ls =>
        rw [hcs] at ih
        have hclosed : closed_line l → closed_line (c :: l) := by
          rintro ⟨body, rfl, hb⟩
          exact ⟨c :: body, rfl, by simpa [hb] using Ne.symm hc⟩
        rcases lines_shaped_head l ls ih with h | ⟨h, rfl⟩
        · exact lines_shaped_cons _ _ (hclosed h) (lines_shaped_tail l ls ih)
        · exact Or.inr ⟨List.cons_ne_nil _ _, by simpa [h.2] using Ne.symm hc⟩

/-- Lines of the right shape are the lines of the text they spell. -/
theorem text_lines_flatten (ls : List (List Char)) (h : lines_shaped ls) :
    text_lines ls.flatten = ls := by
  induction ls with
  | nil => rfl
  | cons l ls ih =>
    rcases lines_shaped_head l ls h with ⟨body, rfl, hb⟩ | ⟨ho, rfl⟩
    · rw [List.flatten_cons, List.append_assoc, List.singleton_append,
        text_lines_closed _ _ hb, ih (lines_shaped_tail _ _ h)]
    · simp [text_lines_open l ho]

theorem stub_closed : closed_line FLASH_RECOVERY_STUB :=
  ⟨"service flash_recovery /system/bin/xxxxx".toList, by decide, by decide⟩

theorem kept_line_cases (l : List Char) :
    (str_contains l VAULTKEEPER = true ∧ kept_line l = none) ∨
    (str_contains l VAULTKEEPER = false ∧ str_starts l FLASH_RECOVERY = true ∧
      kept_line l = some FLASH_RECOVERY_STUB) ∨
    (str_contains l VAULTKEEPER = false ∧ str_starts l FLASH_RECOVERY = false ∧
      kept_line l = some l) := by
  unfold kept_line
  cases str_contains l VAULTKEEPER <;> cases str_starts l FLASH_RECOVERY <;> simp

/-- Dropping and replacing lines as `patch_init_rc` does keeps the shape. -/
theorem kept_lines_shaped (ls : List (List Char)) (h : lines_shaped ls) :
    lines_shaped (ls.filterMap kept_line) := by
  induction ls with
  | nil => trivial
  | cons l ls ih =>
    have iht := ih (lines_shaped_tail _ _ h)
    rcases kept_line_cases l with ⟨_, hk⟩ | ⟨_, _, hk⟩ | ⟨_, _, hk⟩
    · rw [List.filterMap_cons, hk]
      exact iht
    · rw [List.filterMap_cons, hk]
      exact lines_shaped_cons _ _ stub_closed iht
    · rw [List.filterMap_cons, hk]
      rcases lines_shaped_head l ls h with hc | ⟨ho, rfl⟩
      · exact lines_shaped_cons _ _ hc iht
      · exact Or.inr ho

theorem kept_lines_no_vaultkeeper (ls : List (List Char)) :
    ∀ w ∈ ls.filterMap kept_line, str_contains w VAULTKEEPER = false := by
  intro w hw
  obtain ⟨l, _, hl⟩ := List.mem_filterMap.mp hw
  rcases kept_line_cases l with ⟨_, hk⟩ | ⟨_, _, hk⟩ | ⟨hv, _, hk⟩
  · rw [hk] at hl; exact Option.noConfusion hl
  · rw [hk] at hl
    rw [← Option.some.inj hl]
    decide
  · rw [hk] at hl
    rw [← Option.some.inj hl]
    exact hv

theorem kept_lines_count_stub (ls : List (List Char)) :
    (ls.filterMap kept_line).count FLASH_RECOVERY_STUB =
      ls.countP (fun l => str_starts l FLASH_RECOVERY && !str_contains l VAULTKEEPER) := by
  induction ls with
  | nil => rfl
  | cons l ls ih =>
    rcases kept_line_cases l with ⟨hv, hk⟩ | ⟨hv, hf, hk⟩ | ⟨hv, hf, hk⟩
    · rw [List.filterMap_cons, hk, List.countP_cons_of_neg _ _ (by simp [hv])]
      exact ih
    · rw [List.filterMap_cons, hk, List.countP_cons_of_pos _ _ (by simp [hv, hf])]
      simp only [List.count_cons_self, ih]
    · have hne : l ≠ FLASH_RECOVERY_STUB := by
        intro e
        rw [e] at hf
        exact absurd hf (by decide)
      rw [List.filterMap_cons, hk, List.countP_cons_of_neg _ _ (by simp [hf])]
      simp only [List.count_cons_of_ne hne.symm, ih]

theorem foldl_fragments (rc_list : List (List Char)) (rc : List Char) :
    rc_list.foldl (fun rc d => rc ++ "\n".toList ++ c_str d ++ "\n".toList) rc =
      rc ++ (rc_list.map (fun d => "\n".toList ++ c_str d ++ "\n".toList)).flatten := by
  induction rc_list generalizing rc with
  | nil => simp
  | cons d rc_list ih =>
    rw [List.foldl_cons, ih]
    simp [List.append_assoc]

/-- The output of `patch_init_rc`, part by part: the passthrough, a newline,
every fragment between two newlines, the formatted `magiskrc`. -/
theorem patch_init_rc_output (lines rc_list : List (List Char)) (gen : Nat → List Char)
    (magiskrc : List Char → List Char → List Char → List Char → List Char → List Char) :
    (patch_init_rc lines rc_list gen magiskrc).1 =
      passthrough lines ++ "\n".toList ++
        (rc_list.map (fun d => "\n".toList ++ c_str d ++ "\n".toList)).flatten ++
        magiskrc (gen 0) (gen 0) (gen 1) (gen 2) (gen 2) := by
  simp only [patch_init_rc, foldl_fragments]

/-- Claim C3, refuted as stated. A line that starts with
"service flash_recovery" and also contains "start vaultkeeper" is not replaced
by the stub line: it is dropped, the test for "start vaultkeeper" comes first. -/
theorem flash_recovery_line_with_vaultkeeper_is_dropped :
    str_starts flash_vault_line FLASH_RECOVERY = true ∧
    passthrough [flash_vault_line] = [] ∧
    passthrough [flash_vault_line] ≠ FLASH_RECOVERY_STUB := by
  decide

/-- Claim C3, amended. For every `/init.rc` handed over as a sequence of lines
(C strings: no NUL inside), the passthrough part of the output of
`patch_init_rc` is, in input order, each input line copied character for
character, except that every line containing "start vaultkeeper" is omitted
and every other line that starts with "service flash_recovery" is replaced by
"service flash_recovery /system/bin/xxxxx\n"; in the output it is followed by
one newline, the fragments and the formatted `magiskrc`. -/
theorem passthrough_copies_all_other_lines (lines rc_list : List (List Char))
    (gen : Nat → List Char)
    (magiskrc : List Char → List Char → List Char → List Char → List Char → List Char)
    (h : ∀ l ∈ lines, Char.ofNat 0 ∉ l) :
    passthrough lines =
      (lines.filterMap (fun l =>
        if str_contains l VAULTKEEPER then none
        else if str_starts l FLASH_RECOVERY then some FLASH_RECOVERY_STUB
        else some l)).flatten ∧
    (patch_init_rc lines rc_list gen magiskrc).1 =
      passthrough lines ++ "\n".toList ++
        (rc_list.map (fun d => "\n".toList ++ c_str d ++ "\n".toList)).flatten ++
        magiskrc (gen 0) (gen 0) (gen 1) (gen 2) (gen 2) :=
  ⟨passthrough_eq lines h, patch_init_rc_output lines rc_list gen magiskrc⟩

/-- Claim C3, amended, on four lines. -/
theorem passthrough_copies_all_other_lines_witness :
    (∀ l ∈ init_rc_sample, Char.ofNat 0 ∉ l) ∧
    passthrough init_rc_sample =
      (init_rc_sample.filterMap (fun l =>
        if str_contains l VAULTKEEPER then none
        else if str_starts l FLASH_RECOVERY then some FLASH_RECOVERY_STUB
        else some l)).flatten :=
  ⟨by decide,
   (passthrough_copies_all_other_lines init_rc_sample [] (fun _ => []) (fun _ _ _ _ _ => [])
      (by decide)).1⟩

/-- Claim C4, refuted as stated. Whatever `gen_rand_str` and `magiskrc` produce:
with the fragment "    start vaultkeeper\n" collected, the output contains
"start vaultkeeper"; and an `/init.rc` with two flash_recovery service lines
gives an output that starts with two rewritten lines. -/
theorem fragments_and_repeated_lines_break_the_count :
    (∀ (gen : Nat → List Char)
        (magiskrc : List Char → List Char → List Char → List Char → List Char → List Char),
      str_contains (patch_init_rc [] ["    start vaultkeeper\n".toList] gen magiskrc).1
        VAULTKEEPER = true) ∧
    (∀ (gen : Nat → List Char)
        (magiskrc : List Char → List Char → List Char → List Char → List Char → List Char),
      FLASH_RECOVERY_STUB ++ FLASH_RECOVERY_STUB <+:
        (patch_init_rc ["service flash_recovery /a\n".toList,
          "service flash_recovery /b\n".toList] [] gen magiskrc).1) := by
  constructor
  · intro gen magiskrc
    rw [patch_init_rc_output]
    apply str_contains_append
    decide
  · intro gen magiskrc
    rw [patch_init_rc_output]
    have h : passthrough ["service flash_recovery /a\n".toList,
        "service flash_recovery /b\n".toList] = FLASH_RECOVERY_STUB ++ FLASH_RECOVERY_STUB := by
      decide
    rw [h, List.append_assoc, List.append_assoc]
    exact List.prefix_append _ _

/-- Claim C4, amended. For every `/init.rc` handed over as the lines of a text
(C strings, each line running up to its newline) and every list of fragments:
the passthrough part, with which the output of `patch_init_rc` starts, has as
its lines the kept input lines; none of its lines contains
"start vaultkeeper"; and the rewritten line
"service flash_recovery /system/bin/xxxxx" occurs in it once for each input
line that starts with "service flash_recovery" and does not contain
"start vaultkeeper". -/
theorem passthrough_has_one_stub_per_service_line (lines rc_list : List (List Char))
    (gen : Nat → List Char)
    (magiskrc : List Char → List Char → List Char → List Char → List Char → List Char)
    (h0 : ∀ l ∈ lines, Char.ofNat 0 ∉ l) (hs : text_lines lines.flatten = lines) :
    passthrough lines <+: (patch_init_rc lines rc_list gen magiskrc).1 ∧
    text_lines (passthrough lines) = lines.filterMap kept_line ∧
    (∀ w ∈ text_lines (passthrough lines), str_contains w VAULTKEEPER = false) ∧
    (text_lines (passthrough lines)).count FLASH_RECOVERY_STUB =
      lines.countP (fun l => str_starts l FLASH_RECOVERY && !str_contains l VAULTKEEPER) := by
  have hshape : lines_shaped lines := by
    have := text_lines_shaped lines.flatten
    rwa [hs] at this
  have hl : text_lines (passthrough lines) = lines.filterMap kept_line := by
    rw [passthrough_eq lines h0]
    exact text_lines_flatten _ (kept_lines_shaped lines hshape)
  refine ⟨?_, hl, ?_, ?_⟩
  · rw [patch_init_rc_output, List.append_assoc, List.append_assoc]
    exact List.prefix_append _ _
  · rw [hl]
    exact kept_lines_no_vaultkeeper lines
  · rw [hl]
    exact kept_lines_count_stub lines

/-- Claim C4, amended, on four lines: one service line, one rewritten line. -/
theorem passthrough_has_one_stub_per_service_line_witness :
    (∀ l ∈ init_rc_sample, Char.ofNat 0 ∉ l) ∧
    text_lines init_rc_sample.flatten = init_rc_sample ∧
    (text_lines (passthrough init_rc_sample)).count FLASH_RECOVERY_STUB =
      init_rc_sample.countP
        (fun l => str_starts l FLASH_RECOVERY && !str_contains l VAULTKEEPER) :=
  ⟨by decide, by decide,
   (passthrough_has_one_stub_per_service_line init_rc_sample [] (fun _ => [])
      (fun _ _ _ _ _ => []) (by decide) (by decide)).2.2.2⟩

/-! The literals, spelled out -/

theorem literals_spelled :
    MONOPOLICY = cstr_bytes "/sepolicy" ∧
    PATCHPOLICY = cstr_bytes "/sbin/.se" ∧
    SPLIT_PLAT_CIL = cstr_bytes "/system/etc/selinux/plat_sepolicy.cil" ∧
    sample_socket = cstr_bytes "d30138f2310a9fb9c54a3e0c21f58591" := by
  decide

end Magisk
